import Mathlib

/-!
Shallow embedding of `src/py_api_saga/py_api_saga.py` (class `SagaAssembler`).

Modelling conventions:
* A Python callable bound into an operation tuple is a `Callable`: `run n` is the
  outcome of the callable's `n`-th invocation (0-based).  `.ok v` models a normal
  return of value `v`; `.error s` models raising an exception whose `str()` is `s`.
  Indexing invocations by a counter models arbitrary statefulness of Python
  callables; within one `__retry_operation` loop the invocation counter coincides
  with the attempt number, and the only place a callable can be invoked again
  afterwards is the orchestrator compensation sweep (see `sweepOutcome`).
* `self.__saga_results` is appended exactly when an action attempt succeeds; no
  callable in any claim reads it, so the model threads it as an explicit list
  (`acc`) and the assignment `func.func.saga_results = ...` is a no-op.
* Python exception objects are modelled by their `str()` (a `String`); the value
  `none` in an `Option String` error slot models the `TypeError` produced by
  `raise None` when the retry loop body never ran (`retry_attempts` normalised to
  a non-positive count).
* Machine concurrency in `choreography_execute` is modelled by its observable
  behaviour: each submitted task runs `__retry_operation` on one action, the
  thread list is built (and its results collected) in declaration-index order,
  and `Future.result()` re-raises the task's exception.  No callable reads the
  shared accumulator, so each task's outcome is a pure function of its own
  behaviour.
-/

namespace PyApiSaga

/-- A Python callable bound into an operation tuple (a `functools` bound call).
`name` models `func.__name__`; `run n` is the outcome of its `n`-th invocation. -/
structure Callable (α : Type) where
  name : String
  run : Nat → Except String α

/-- One entry of `self.__operations`: the tuple built by `operation`.
`action` is tuple element `[0]`; `comp` (when a compensation was declared) is
element `[1]`.  Python's `[-1]` is `comp` when present, otherwise `action`. -/
structure Operation (α : Type) where
  action : Callable α
  comp : Option (Callable α)

/-- `len(...)` of the operation tuple: 1 without a compensation, 2 with one. -/
def tupleLen (op : Operation α) : Nat :=
  match op.comp with
  | some _ => 2
  | none => 1

/-- Loop body of `__retry_operation`: attempt `f` starting at invocation index
`k` with `fuel` attempts left, carrying the latest error (`last`).  On success
the response is appended to the accumulator and returned; after exhaustion the
retained error is re-raised (`.error none` models Python's `raise None`). -/
def retryAux (f : Nat → Except String α) (acc : List α) :
    Nat → Nat → Option String → Except (Option String) (α × List α)
  | _, 0, last => Except.error last
  | k, fuel + 1, _ =>
    match f k with
    | Except.ok v => Except.ok (v, acc ++ [v])
    | Except.error e => retryAux f acc (k + 1) fuel (some e)

/-- `__retry_operation`: run `f` up to `R` times against accumulator `acc`. -/
def retry_operation (R : Nat) (f : Nat → Except String α) (acc : List α) :
    Except (Option String) (α × List α) :=
  retryAux f acc 0 R none

/-- The value-level outcome of `__retry_operation` (accumulator dropped). -/
def retryRun (R : Nat) (f : Nat → Except String α) : Except (Option String) α :=
  match retry_operation R f [] with
  | Except.ok (v, _) => Except.ok v
  | Except.error e => Except.error e

/-- Does `__retry_operation` on `f` return normally? -/
def retryOk (R : Nat) (f : Nat → Except String α) : Bool :=
  match retryRun R f with
  | Except.ok _ => true
  | Except.error _ => false

/-- The error `__retry_operation` raises on `f` (junk `none` if it succeeds). -/
def retryError (R : Nat) (f : Nat → Except String α) : Option String :=
  match retryRun R f with
  | Except.ok _ => none
  | Except.error e => e

/-- Number of invocations the retry loop performs on `f` (counting from
invocation index `k`, with `fuel` attempts allowed). -/
def attemptsAux (f : Nat → Except String α) : Nat → Nat → Nat
  | _, 0 => 0
  | k, fuel + 1 =>
    match f k with
    | Except.ok _ => 1
    | Except.error _ => 1 + attemptsAux f (k + 1) fuel

/-- Total number of invocations `__retry_operation` makes on `f` with `R` attempts. -/
def attemptsUsed (R : Nat) (f : Nat → Except String α) : Nat :=
  attemptsAux f 0 R

/-- `SagaAssembler.SagaException`: the structured failure.  In the source
`operation_name` defaults to `None` and is otherwise the failing callable's
`__name__`; `operation_error` is the caught exception. -/
structure SagaException (α : Type) where
  operation_error : Option String
  operation_name : Option String
  compensation_success_result : Option (List α)
  compensation_errors : Option (List String)
  deriving DecidableEq, Repr

/-- `range(n - 1, -1, -1)`: the indices `n-1, n-2, ..., 0`. -/
def downFrom : Nat → List Nat
  | 0 => []
  | n + 1 => n :: downFrom n

/-- Python `x or None`: an empty collected list is normalised to absent. -/
def orNone (l : List β) : Option (List β) :=
  if l.isEmpty then none else some l

/-- The shared tail of both compensation executors: package the collected
outputs and stringified errors, normalising empty lists to `None`. -/
def aggregateCompensation (succ : List α) (errs : List String) :
    Option (List α) × Option (List String) :=
  (orNone succ, orNone errs)

/-- Outcome of the orchestrator sweep's call `self.__operations[j][-1]()`.
When a compensation was declared this is its first invocation; otherwise
`[-1]` is the action callable itself, whose invocation counter has already
advanced past the retry loop's attempts. -/
def sweepOutcome (R : Nat) (op : Operation α) : Except String α :=
  match op.comp with
  | some c => c.run 0
  | none => op.action.run (attemptsUsed R op.action.run)

/-- Loop of `__execute_orchestrator_compensation` over the index list `idxs`
(in the source: `range(last_operation_index - 1, -1, -1)`).  Returns the list
of calls made — `(j, b)` meaning tuple element `[-1]` of operation `j` was
invoked, with `b = true` iff that element is a declared compensation — together
with the collected outputs and the collected stringified errors, each exception
caught individually. -/
def sweepGo (R : Nat) (ops : List (Operation α)) : List Nat → List (Nat × Bool) × List α × List String
  | [] => ([], [], [])
  | j :: rest =>
    match ops[j]? with
    | none => sweepGo R ops rest
    | some op =>
      let r := sweepGo R ops rest
      if tupleLen op != 0 then
        match sweepOutcome R op with
        | Except.ok v => ((j, op.comp.isSome) :: r.1, v :: r.2.1, r.2.2)
        | Except.error e => ((j, op.comp.isSome) :: r.1, r.2.1, e :: r.2.2)
      else r

/-- `__execute_orchestrator_compensation`. -/
def execute_orchestrator_compensation (R : Nat) (ops : List (Operation α))
    (last_operation_index : Nat) : Option (List α) × Option (List String) :=
  let r := sweepGo R ops (downFrom last_operation_index)
  aggregateCompensation r.2.1 r.2.2

/-- An observable callable invocation during an orchestrator run:
`attempt i n` is the `n`-th invocation of operation `i`'s action by the retry
loop; `sweep j b` is the compensation sweep invoking tuple element `[-1]` of
operation `j` (`b = true` iff that element is a declared compensation). -/
inductive Ev where
  | attempt (opIdx : Nat) (n : Nat)
  | sweep (opIdx : Nat) (isComp : Bool)
  deriving DecidableEq, Repr

/-- The operation index an event belongs to. -/
def evIdx : Ev → Nat
  | Ev.attempt i _ => i
  | Ev.sweep j _ => j

/-- Project a trace to its compensation-sweep calls. -/
def sweepEvents (tr : List Ev) : List (Nat × Bool) :=
  tr.filterMap fun ev =>
    match ev with
    | Ev.sweep j b => some (j, b)
    | Ev.attempt _ _ => none

/-- Main loop of `orchestrator_execute` over the remaining operations `rest`
(`i` is the current `operation_index`, `acc` the accumulator/response list).
Returns the result together with the trace of callable invocations. -/
def orchGo (R : Nat) (ops : List (Operation α)) :
    Nat → List (Operation α) → List α → Except (SagaException α) (List α) × List Ev
  | _, [], acc => (Except.ok acc, [])
  | i, op :: rest, acc =>
    let fwd := (List.range (attemptsUsed R op.action.run)).map fun n => Ev.attempt i n
    match retry_operation R op.action.run acc with
    | Except.ok (_, acc2) =>
      let r := orchGo R ops (i + 1) rest acc2
      (r.1, fwd ++ r.2)
    | Except.error e =>
      let c := execute_orchestrator_compensation R ops i
      let ex : SagaException α :=
        { operation_error := e, operation_name := some op.action.name,
          compensation_success_result := c.1, compensation_errors := c.2 }
      (Except.error ex,
       fwd ++ (sweepGo R ops (downFrom i)).1.map fun p => Ev.sweep p.1 p.2)

/-- `orchestrator_execute` (`__check_available_operations` inlined: an empty
registry raises `SagaException("Set operation first to execute the saga.")`). -/
def orchestrator_execute (R : Nat) (ops : List (Operation α)) :
    Except (SagaException α) (List α) :=
  if ops.isEmpty then
    let ex : SagaException α :=
      { operation_error := some "Set operation first to execute the saga.",
        operation_name := none, compensation_success_result := none,
        compensation_errors := none }
    Except.error ex
  else
    (orchGo R ops 0 ops []).1

/-- The invocation trace of an orchestrator run. -/
def orchTrace (R : Nat) (ops : List (Operation α)) : List Ev :=
  (orchGo R ops 0 ops []).2

/-- Index of the first operation whose action fails after retry exhaustion
(the index at which a sequential run fails, and the lowest failing index of a
concurrent run). -/
def failIndexFrom (R : Nat) : List (Operation α) → Option Nat
  | [] => none
  | op :: rest =>
    if retryOk R op.action.run then (failIndexFrom R rest).map (· + 1) else some 0

/-- The record returned by `__SagaThreadExecutor.submit`, with the future's
blocking `result()` already substituted by the task's outcome (the observable
behaviour: `result()` returns the task's value or re-raises its exception). -/
structure ThreadRecord (α : Type) where
  function_index : Nat
  function_name : String
  outcome : Except (Option String) α

/-- The thread list submitted by `choreography_execute`: one task per operation,
built over `range(len(self.__operations))`, each running `__retry_operation` on
that operation's action (`base` is the index of the first listed operation). -/
def threadsFrom (R : Nat) : Nat → List (Operation α) → List (ThreadRecord α)
  | _, [] => []
  | i, op :: rest =>
    { function_index := i, function_name := op.action.name,
      outcome := retryRun R op.action.run } :: threadsFrom R (i + 1) rest

/-- All thread records of a choreography run, in declaration-index order. -/
def choreographyThreads (R : Nat) (ops : List (Operation α)) : List (ThreadRecord α) :=
  threadsFrom R 0 ops

/-- `__SagaThreadException`: raised by `__prepare_thread_result` when at least
one task failed.  `success_results` is the `success_index` list (indices of the
succeeded tasks), `failed_results` the `(function_index, function_name, error)`
records for the failed tasks, both in collection order. -/
structure SagaThreadException (α : Type) where
  success_results : List Nat
  failed_results : List (Nat × String × Option String)
  deriving DecidableEq, Repr

/-- Loop of `__prepare_thread_result`: walk the thread list in order, collecting
each task's value and index on success and its `(index, name, error)` record on
failure.  Returns `(success, success_index, errors)`. -/
def prepareGo : List (ThreadRecord α) → List α × List Nat × List (Nat × String × Option String)
  | [] => ([], [], [])
  | t :: rest =>
    let r := prepareGo rest
    match t.outcome with
    | Except.ok v => (v :: r.1, t.function_index :: r.2.1, r.2.2)
    | Except.error e => (r.1, r.2.1, (t.function_index, t.function_name, e) :: r.2.2)

/-- `__prepare_thread_result`. -/
def prepare_thread_result (threads : List (ThreadRecord α)) :
    Except (SagaThreadException α) (List α) :=
  let r := prepareGo threads
  if r.2.2.isEmpty then Except.ok r.1
  else Except.error { success_results := r.2.1, failed_results := r.2.2 }

/-- Does the registry entry at index `j` carry a declared compensation? -/
def compAt (ops : List (Operation α)) (j : Nat) : Bool :=
  match ops[j]? with
  | some op => op.comp.isSome
  | none => false

/-- The comprehension filter of `__execute_choreography_compensation`: the
succeeded indices whose operation tuple has length 2 (compensation declared),
in `success_index` order — these are the compensations submitted to the pool. -/
def eligibleComps (ops : List (Operation α)) (success_index : List Nat) : List Nat :=
  success_index.filter fun i =>
    match ops[i]? with
    | some op => tupleLen op == 2
    | none => false

/-- Outcomes of the submitted compensation tasks, in submission order.  Each is
the single direct invocation `self.__operations[i][-1]()` of a declared
compensation (its first invocation). -/
def choreographyCompOutcomes (ops : List (Operation α)) (success_index : List Nat) :
    List (Except String α) :=
  (eligibleComps ops success_index).filterMap fun i =>
    match ops[i]? with
    | some op =>
      match op.comp with
      | some c => some (c.run 0)
      | none => none
    | none => none

/-- Collection loop of `__execute_choreography_compensation`: outputs of the
succeeded compensation tasks and stringified errors of the failed ones, each
exception caught individually, in submission order. -/
def partitionOutcomes : List (Except String α) → List α × List String
  | [] => ([], [])
  | Except.ok v :: rest =>
    let r := partitionOutcomes rest
    (v :: r.1, r.2)
  | Except.error e :: rest =>
    let r := partitionOutcomes rest
    (r.1, e :: r.2)

/-- `__execute_choreography_compensation`. -/
def execute_choreography_compensation (ops : List (Operation α)) (success_index : List Nat) :
    Option (List α) × Option (List String) :=
  let r := partitionOutcomes (choreographyCompOutcomes ops success_index)
  aggregateCompensation r.1 r.2

/-- `choreography_execute`.  The empty-registry `SagaException` raised by
`__check_available_operations` is not a `__SagaThreadException`, so it escapes
the `try` unchanged.  On a `__SagaThreadException`, compensation runs for the
succeeded indices and a `SagaException` is raised from `failed_results[0]`.
(The `failed_results = []` arm is unreachable: `__prepare_thread_result` only
raises with a nonempty `failed_results`; Python would raise `IndexError`.) -/
def choreography_execute (R : Nat) (ops : List (Operation α)) :
    Except (SagaException α) (List α) :=
  if ops.isEmpty then
    let ex : SagaException α :=
      { operation_error := some "Set operation first to execute the saga.",
        operation_name := none, compensation_success_result := none,
        compensation_errors := none }
    Except.error ex
  else
    match prepare_thread_result (choreographyThreads R ops) with
    | Except.ok s => Except.ok s
    | Except.error te =>
      let c := execute_choreography_compensation ops te.success_results
      match te.failed_results with
      | (_, fname, ferr) :: _ =>
        let ex : SagaException α :=
          { operation_error := ferr, operation_name := some fname,
            compensation_success_result := c.1, compensation_errors := c.2 }
        Except.error ex
      | [] =>
        let ex : SagaException α :=
          { operation_error := none, operation_name := none,
            compensation_success_result := c.1, compensation_errors := c.2 }
        Except.error ex

/-!  Model of `SagaAssembler.__init__` (saga construction). -/

/-- A Python value passed as `retry_attempts`: `None`, an `int`, a `float`
(only its truthiness — being `0.0` — matters to `__init__`), a `str`, or any
other object carrying its truthiness. -/
inductive RetryArg where
  | pyNone
  | pyInt (n : Int)
  | pyFloat (isZero : Bool)
  | pyStr (s : String)
  | pyObj (truthy : Bool)
  deriving DecidableEq, Repr

/-- Python truthiness of a `retry_attempts` value. -/
def pyTruthy : RetryArg → Bool
  | RetryArg.pyNone => false
  | RetryArg.pyInt n => n != 0
  | RetryArg.pyFloat isZero => !isZero
  | RetryArg.pyStr s => s != ""
  | RetryArg.pyObj truthy => truthy

/-- `isinstance(x, int) or isinstance(x, float)`. -/
def pyNumber : RetryArg → Bool
  | RetryArg.pyInt _ => true
  | RetryArg.pyFloat _ => true
  | _ => false

/-- The state `__init__` leaves behind: the stored `self.__retry_attempts`. -/
structure SagaConfig where
  retry_attempts : RetryArg
  deriving DecidableEq, Repr

/-- `SagaAssembler.__init__` (reached identically through the static method
`saga`, whose `retry_attempts` parameter defaults to `None`): raise
`SagaException` iff the value is truthy and neither `int` nor `float`;
otherwise store `retry_attempts or 1`.  The stored error string stands for the
f-string message naming the offending type. -/
def sagaInit (retry_attempts : RetryArg) : Except String SagaConfig :=
  if pyTruthy retry_attempts && !pyNumber retry_attempts then
    Except.error "`retry_attempts` cannot be this type. Integer type is required."
  else
    Except.ok { retry_attempts := if pyTruthy retry_attempts then retry_attempts else RetryArg.pyInt 1 }

/-!  Model of `operation` / `__check_operation` (operation declaration). -/

/-- A Python value passed to `operation`: a plain function
(`types.FunctionType`, including lambdas), a callable that is not a plain
function (builtin, class, bound method, `functools` object, ...), an indexable
iterable of values, or any other non-callable non-iterable object. -/
inductive OpArg where
  | func (name : String)
  | callableObj (name : String)
  | iterable (elems : List OpArg)
  | plain

/-- Python `callable(x)` on an `OpArg`. -/
def pyCallable : OpArg → Bool
  | OpArg.func _ => true
  | OpArg.callableObj _ => true
  | _ => false

/-- The bound call `functools` builds from one accepted argument: the function
name plus the pre-bound positional arguments taken from the sequence tail. -/
structure BoundCall where
  fn : String
  boundArgs : List OpArg

/-- An error escaping `operation`: the `SagaException` raised by the
validation, or the `IndexError` Python raises for `arg[0]` on an empty
sequence (which is not a `SagaException`). -/
inductive DeclErr where
  | sagaExc (msg : String)
  | indexError
  deriving DecidableEq, Repr

/-- `__check_operation`: an iterable is accepted iff its element `[0]` is a
plain function (the tail becomes pre-bound arguments); a non-iterable is
accepted iff it is itself a plain function; everything else raises. -/
def check_operation : OpArg → Except DeclErr BoundCall
  | OpArg.func n => Except.ok { fn := n, boundArgs := [] }
  | OpArg.iterable [] => Except.error DeclErr.indexError
  | OpArg.iterable (OpArg.func n :: rest) => Except.ok { fn := n, boundArgs := rest }
  | OpArg.iterable (_ :: _) =>
    Except.error (DeclErr.sagaExc "Please add function in operation argument.")
  | _ => Except.error (DeclErr.sagaExc "Please add function in operation argument.")

/-- The list comprehension `[self.__check_operation(arg) for arg in args]`:
left to right, the first raise aborts the whole comprehension. -/
def checkAll : List OpArg → Except DeclErr (List BoundCall)
  | [] => Except.ok []
  | a :: rest =>
    match check_operation a with
    | Except.error e => Except.error e
    | Except.ok b =>
      match checkAll rest with
      | Except.error e => Except.error e
      | Except.ok bs => Except.ok (b :: bs)

/-- Is an argument one `__check_operation` accepts? -/
def acceptedArg : OpArg → Bool
  | OpArg.func _ => true
  | OpArg.iterable (OpArg.func _ :: _) => true
  | _ => false

/-- `operation` (the spec's `declare`): validates the argument count, then runs
`__check_operation` on every argument and only then appends the tuple to
`self.__operations`.  Returns the registry after the call together with the
raised error, if any. -/
def operation (regs : List (List BoundCall)) (args : List OpArg) :
    List (List BoundCall) × Option DeclErr :=
  if args.isEmpty then
    (regs, some (DeclErr.sagaExc "Operation can not be empty"))
  else if 2 < args.length then
    (regs, some (DeclErr.sagaExc "Only two operations (action, compensation) are allowed."))
  else
    match checkAll args with
    | Except.error e => (regs, some e)
    | Except.ok tup => (regs ++ [tup], none)

/-- The `success_index` list a failing choreography run hands to
`__execute_choreography_compensation`. -/
def successIndices (R : Nat) (ops : List (Operation α)) : List Nat :=
  (prepareGo (choreographyThreads R ops)).2.1

/-- Does the action at registry index `j` fail after retry exhaustion? -/
def failsAt (R : Nat) (ops : List (Operation α)) (j : Nat) : Bool :=
  match ops[j]? with
  | some op => !retryOk R op.action.run
  | none => false

/-!  Concrete callables and registries used by counterexamples and witnesses. -/

/-- A callable that always returns `v`. -/
def okCall (nm : String) (v : Nat) : Callable Nat :=
  { name := nm, run := fun _ => Except.ok v }

/-- A callable that always raises an exception stringifying to `msg`. -/
def failCall (nm msg : String) : Callable Nat :=
  { name := nm, run := fun _ => Except.error msg }

/-- A callable that raises `msg` on its first `s` invocations and then
returns `v`. -/
def flakyCall (nm msg : String) (s : Nat) (v : Nat) : Callable Nat :=
  { name := nm, run := fun n => if n < s then Except.error msg else Except.ok v }

/-- Registry for C1: an action-only operation that succeeds, then a failing
operation. -/
def opsC1 : List (Operation Nat) :=
  [⟨okCall "reserve" 7, none⟩, ⟨failCall "ship" "boom", none⟩]

/-- Registry for the C2 witness: three succeeding operations (the middle one
without a compensation) followed by a failing one. -/
def opsC2 : List (Operation Nat) :=
  [⟨okCall "debit" 1, some (okCall "credit" 11)⟩, ⟨okCall "reserve" 2, none⟩,
   ⟨okCall "hold" 3, some (okCall "unhold" 33)⟩, ⟨failCall "ship" "nostock", none⟩]

/-- Registry for the C4 witness: every action succeeds. -/
def opsC4 : List (Operation Nat) :=
  [⟨okCall "a" 1, none⟩, ⟨okCall "b" 2, some (okCall "undoB" 20)⟩, ⟨okCall "c" 3, none⟩]

/-- Registry for the C5 witness: two succeeding operations (one with and one
without a compensation) and a failing one that also declares a compensation. -/
def opsC5 : List (Operation Nat) :=
  [⟨okCall "a" 1, some (okCall "undoA" 10)⟩, ⟨okCall "b" 2, none⟩,
   ⟨failCall "f" "x", some (okCall "undoF" 30)⟩]

/-- Single failing operation (C6 counterexample, first run). -/
def opsC6a : List (Operation Nat) :=
  [⟨failCall "f" "boom", none⟩]

/-- A succeeding compensation-free operation before the same failing operation
(C6 counterexample, second run). -/
def opsC6b : List (Operation Nat) :=
  [⟨okCall "g" 5, none⟩, ⟨failCall "f" "boom", none⟩]

/-- Registry for the C9 witness. -/
def opsC9 : List (Operation Nat) :=
  [⟨okCall "a" 1, some (okCall "undoA" 11)⟩, ⟨okCall "b" 2, none⟩]

/-- Registry for the C10 witness: a success followed by two ultimately failing
actions. -/
def opsC10 : List (Operation Nat) :=
  [⟨okCall "a" 1, none⟩, ⟨failCall "f" "e1", none⟩, ⟨failCall "g" "e2", none⟩]

/-- Behaviour for the C3 witness: raises on attempts 1 and 2, returns 42 on
attempt 3. -/
def fC3 : Nat → Except String Nat :=
  fun n => if n < 2 then Except.error "boom" else Except.ok 42

/-- Behaviour for the C3 witness: raises on every attempt. -/
def gC3 : Nat → Except String Nat :=
  fun _ => Except.error "boom"

/-!  Lemmas about the retry executor. -/

theorem retryAux_acc (f : Nat → Except String α) (acc : List α) :
    ∀ fuel k last, retryAux f acc k fuel last =
      match retryAux f ([] : List α) k fuel last with
      | Except.ok (v, _) => Except.ok (v, acc ++ [v])
      | Except.error e => Except.error e := by
  intro fuel
  induction fuel with
  | zero => intro k last; rfl
  | succ n ih =>
    intro k last
    simp only [retryAux]
    cases hf : f k with
    | ok v => simp
    | error e => exact ih (k + 1) (some e)

theorem retry_operation_eq (R : Nat) (f : Nat → Except String α) (acc : List α) :
    retry_operation R f acc =
      match retryRun R f with
      | Except.ok v => Except.ok (v, acc ++ [v])
      | Except.error e => Except.error e := by
  unfold retry_operation retryRun retry_operation
  rw [retryAux_acc f acc R 0 none]
  cases retryAux f ([] : List α) 0 R none with
  | ok p => rfl
  | error e => rfl

theorem retry_operation_of_ok (R : Nat) (f : Nat → Except String α) (acc : List α)
    (v : α) (h : retryRun R f = Except.ok v) :
    retry_operation R f acc = Except.ok (v, acc ++ [v]) := by
  rw [retry_operation_eq, h]

theorem retry_operation_of_error (R : Nat) (f : Nat → Except String α) (acc : List α)
    (e : Option String) (h : retryRun R f = Except.error e) :
    retry_operation R f acc = Except.error e := by
  rw [retry_operation_eq, h]

theorem retryOk_true (R : Nat) (f : Nat → Except String α) (h : retryOk R f = true) :
    ∃ v, retryRun R f = Except.ok v := by
  unfold retryOk at h
  cases hr : retryRun R f with
  | ok v => exact ⟨v, rfl⟩
  | error e => rw [hr] at h; simp at h

theorem retryOk_false (R : Nat) (f : Nat → Except String α) (h : retryOk R f = false) :
    retryRun R f = Except.error (retryError R f) := by
  unfold retryOk at h
  unfold retryError
  cases hr : retryRun R f with
  | ok v => rw [hr] at h; simp at h
  | error e => rfl

theorem retryAux_first_ok (f : Nat → Except String α) (acc : List α) :
    ∀ s fuel k last v, s < fuel → f (k + s) = Except.ok v →
      (∀ i, i < s → ∃ e, f (k + i) = Except.error e) →
      retryAux f acc k fuel last = Except.ok (v, acc ++ [v]) := by
  intro s
  induction s with
  | zero =>
    intro fuel k last v hlt hok _
    cases fuel with
    | zero => omega
    | succ m =>
      rw [Nat.add_zero] at hok
      simp only [retryAux, hok]
  | succ n ih =>
    intro fuel k last v hlt hok herr
    cases fuel with
    | zero => omega
    | succ m =>
      obtain ⟨e0, he0⟩ := herr 0 (Nat.succ_pos n)
      rw [Nat.add_zero] at he0
      simp only [retryAux, he0]
      have hre : k + 1 + n = k + (n + 1) := by omega
      refine ih m (k + 1) (some e0) v (by omega) (by rw [hre]; exact hok) ?_
      intro i hi
      obtain ⟨e, he⟩ := herr (i + 1) (by omega)
      exact ⟨e, by rw [show k + 1 + i = k + (i + 1) by omega]; exact he⟩

theorem retryRun_first_ok (R s : Nat) (f : Nat → Except String α) (v : α)
    (hs : s < R) (hok : f s = Except.ok v)
    (herr : ∀ i, i < s → ∃ e, f i = Except.error e) :
    retryRun R f = Except.ok v := by
  unfold retryRun retry_operation
  rw [retryAux_first_ok f [] s R 0 none v hs (by simpa using hok)
    (by intro i hi; simpa using herr i hi)]

theorem retryAux_all_error (f : Nat → Except String α) (acc : List α) (errf : Nat → String) :
    ∀ fuel k last, 0 < fuel →
      (∀ i, i < fuel → f (k + i) = Except.error (errf (k + i))) →
      retryAux f acc k fuel last = Except.error (some (errf (k + fuel - 1))) := by
  intro fuel
  induction fuel with
  | zero => intro k last h; omega
  | succ m ih =>
    intro k last _ herr
    have h0 : f k = Except.error (errf k) := by simpa using herr 0 (Nat.succ_pos m)
    simp only [retryAux, h0]
    cases m with
    | zero => rfl
    | succ m2 =>
      have harith : k + 1 + (m2 + 1) - 1 = k + (m2 + 1 + 1) - 1 := by omega
      have hrec := ih (k + 1) (some (errf k)) (Nat.succ_pos m2) ?_
      · rw [hrec, harith]
      · intro i hi
        have := herr (i + 1) (by omega)
        rw [show k + 1 + i = k + (i + 1) by omega]
        exact this

theorem retryRun_all_error (R : Nat) (f : Nat → Except String α) (errf : Nat → String)
    (hR : 0 < R) (h : ∀ i, i < R → f i = Except.error (errf i)) :
    retryRun R f = Except.error (some (errf (R - 1))) := by
  unfold retryRun retry_operation
  rw [retryAux_all_error f [] errf R 0 none hR (by intro i hi; simpa using h i hi)]
  simp

theorem attemptsAux_first_ok (f : Nat → Except String α) :
    ∀ s fuel k v, s < fuel → f (k + s) = Except.ok v →
      (∀ i, i < s → ∃ e, f (k + i) = Except.error e) →
      attemptsAux f k fuel = s + 1 := by
  intro s
  induction s with
  | zero =>
    intro fuel k v hlt hok _
    cases fuel with
    | zero => omega
    | succ m =>
      rw [Nat.add_zero] at hok
      simp only [attemptsAux, hok]
  | succ n ih =>
    intro fuel k v hlt hok herr
    cases fuel with
    | zero => omega
    | succ m =>
      obtain ⟨e0, he0⟩ := herr 0 (Nat.succ_pos n)
      rw [Nat.add_zero] at he0
      simp only [attemptsAux, he0]
      rw [ih m (k + 1) v (by omega) (by rw [show k + 1 + n = k + (n + 1) by omega]; exact hok)
        (by intro i hi
            obtain ⟨e, he⟩ := herr (i + 1) (by omega)
            exact ⟨e, by rw [show k + 1 + i = k + (i + 1) by omega]; exact he⟩)]
      omega

theorem attemptsUsed_first_ok (R s : Nat) (f : Nat → Except String α) (v : α)
    (hs : s < R) (hok : f s = Except.ok v)
    (herr : ∀ i, i < s → ∃ e, f i = Except.error e) :
    attemptsUsed R f = s + 1 := by
  unfold attemptsUsed
  exact attemptsAux_first_ok f s R 0 v hs (by simpa using hok)
    (by intro i hi; simpa using herr i hi)

/-!  Lemmas about index lists and the failure index. -/

theorem mem_downFrom : ∀ n j, j ∈ downFrom n ↔ j < n := by
  intro n
  induction n with
  | zero => intro j; simp [downFrom]
  | succ m ih => intro j; simp [downFrom, ih j]; omega

theorem failIndexFrom_lt (R : Nat) :
    ∀ (ops : List (Operation α)) k, failIndexFrom R ops = some k → k < ops.length := by
  intro ops
  induction ops with
  | nil => intro k h; exact Option.noConfusion h
  | cons op rest ih =>
    intro k h
    simp only [failIndexFrom] at h
    by_cases h0 : retryOk R op.action.run
    · rw [if_pos h0] at h
      cases hr : failIndexFrom R rest with
      | none => rw [hr] at h; simp at h
      | some k2 =>
        rw [hr] at h
        simp only [Option.map_some'] at h
        cases h
        have := ih k2 hr
        simp only [List.length_cons]
        omega
    · rw [if_neg h0] at h
      cases h
      simp

theorem failIndexFrom_get (R : Nat) :
    ∀ (ops : List (Operation α)) k, failIndexFrom R ops = some k →
      ∃ op, ops[k]? = some op ∧ retryOk R op.action.run = false := by
  intro ops
  induction ops with
  | nil => intro k h; exact Option.noConfusion h
  | cons op rest ih =>
    intro k h
    simp only [failIndexFrom] at h
    by_cases h0 : retryOk R op.action.run
    · rw [if_pos h0] at h
      cases hr : failIndexFrom R rest with
      | none => rw [hr] at h; simp at h
      | some k2 =>
        rw [hr] at h
        simp only [Option.map_some'] at h
        cases h
        obtain ⟨op2, hop2, hfail⟩ := ih k2 hr
        exact ⟨op2, by simpa using hop2, hfail⟩
    · rw [if_neg h0] at h
      cases h
      exact ⟨op, by simp, by simpa using h0⟩

theorem failIndexFrom_least (R : Nat) :
    ∀ (ops : List (Operation α)) k, failIndexFrom R ops = some k →
      ∀ j op, j < k → ops[j]? = some op → retryOk R op.action.run = true := by
  intro ops
  induction ops with
  | nil => intro k h; exact Option.noConfusion h
  | cons op rest ih =>
    intro k h j op2 hj hop2
    simp only [failIndexFrom] at h
    by_cases h0 : retryOk R op.action.run
    · rw [if_pos h0] at h
      cases hr : failIndexFrom R rest with
      | none => rw [hr] at h; simp at h
      | some k2 =>
        rw [hr] at h
        simp only [Option.map_some'] at h
        cases h
        cases j with
        | zero =>
          simp only [List.getElem?_cons_zero] at hop2
          cases hop2
          exact h0
        | succ j2 =>
          simp only [List.getElem?_cons_succ] at hop2
          exact ih k2 hr j2 op2 (by omega) hop2
    · rw [if_neg h0] at h
      cases h
      omega

/-!  Lemmas about the orchestrator compensation sweep. -/

theorem tupleLen_pos (op : Operation α) : (tupleLen op != 0) = true := by
  unfold tupleLen
  cases op.comp with
  | some c => rfl
  | none => rfl

theorem sweepGo_calls (R : Nat) (ops : List (Operation α)) :
    ∀ idxs, (∀ j, j ∈ idxs → j < ops.length) →
      (sweepGo R ops idxs).1 = idxs.map fun j => (j, compAt ops j) := by
  intro idxs
  induction idxs with
  | nil => intro _; rfl
  | cons j rest ih =>
    intro h
    have hj : j < ops.length := h j (List.mem_cons_self j rest)
    have hop : ops[j]? = some ops[j] := List.getElem?_eq_getElem hj
    have hrest := ih fun j2 hj2 => h j2 (List.mem_cons_of_mem j hj2)
    simp only [sweepGo, hop, tupleLen_pos, if_true]
    cases hout : sweepOutcome R ops[j] with
    | ok v =>
      simp only [List.map_cons, hrest]
      unfold compAt
      rw [hop]
    | error e =>
      simp only [List.map_cons, hrest]
      unfold compAt
      rw [hop]

theorem sweepGo_fst_mem (R : Nat) (ops : List (Operation α)) :
    ∀ idxs p, p ∈ (sweepGo R ops idxs).1 → p.1 ∈ idxs := by
  intro idxs
  induction idxs with
  | nil => intro p h; simp [sweepGo] at h
  | cons j rest ih =>
    intro p h
    simp only [sweepGo] at h
    cases hop : ops[j]? with
    | none =>
      rw [hop] at h
      exact List.mem_cons_of_mem j (ih p h)
    | some op =>
      rw [hop] at h
      simp only [tupleLen_pos, if_true] at h
      cases hout : sweepOutcome R op with
      | ok v =>
        rw [hout] at h
        rcases List.mem_cons.1 h with h1 | h2
        · rw [h1]; exact List.mem_cons_self j rest
        · exact List.mem_cons_of_mem j (ih p h2)
      | error e =>
        rw [hout] at h
        rcases List.mem_cons.1 h with h1 | h2
        · rw [h1]; exact List.mem_cons_self j rest
        · exact List.mem_cons_of_mem j (ih p h2)

/-!  Lemmas about the orchestrator main loop. -/

theorem sweepEvents_append (a b : List Ev) :
    sweepEvents (a ++ b) = sweepEvents a ++ sweepEvents b := by
  unfold sweepEvents
  exact List.filterMap_append a b _

theorem sweepEvents_attempts (i : Nat) (l : List Nat) :
    sweepEvents (l.map fun n => Ev.attempt i n) = [] := by
  induction l with
  | nil => rfl
  | cons n rest _ => simp [sweepEvents, List.filterMap_cons]

theorem sweepEvents_sweeps (l : List (Nat × Bool)) :
    sweepEvents (l.map fun p => Ev.sweep p.1 p.2) = l := by
  induction l with
  | nil => rfl
  | cons p rest ih => simpa [sweepEvents, List.filterMap_cons] using ih

theorem orchGo_ok (R : Nat) (ops : List (Operation α)) :
    ∀ (rest : List (Operation α)) (vs : List α) (i : Nat) (acc : List α),
      rest.map (fun op => retryRun R op.action.run) = vs.map Except.ok →
      (orchGo R ops i rest acc).1 = Except.ok (acc ++ vs) := by
  intro rest
  induction rest with
  | nil =>
    intro vs i acc h
    cases vs with
    | nil => simp [orchGo]
    | cons v vs2 => simp at h
  | cons op rest2 ih =>
    intro vs i acc h
    cases vs with
    | nil => simp at h
    | cons v vs2 =>
      simp only [List.map_cons, List.cons.injEq] at h
      obtain ⟨h1, h2⟩ := h
      simp only [orchGo, retry_operation_of_ok R op.action.run acc v h1]
      rw [ih vs2 (i + 1) (acc ++ [v]) h2]
      simp

theorem orchGo_fail (R : Nat) (ops : List (Operation α)) :
    ∀ (rest : List (Operation α)) (k : Nat) (op : Operation α) (i : Nat) (acc : List α),
      failIndexFrom R rest = some k → rest[k]? = some op →
      (orchGo R ops i rest acc).1 = Except.error
        { operation_error := retryError R op.action.run,
          operation_name := some op.action.name,
          compensation_success_result := (execute_orchestrator_compensation R ops (i + k)).1,
          compensation_errors := (execute_orchestrator_compensation R ops (i + k)).2 } := by
  intro rest
  induction rest with
  | nil => intro k op i acc h; exact Option.noConfusion h
  | cons op0 rest2 ih =>
    intro k op i acc hk hop
    simp only [failIndexFrom] at hk
    by_cases h0 : retryOk R op0.action.run
    · rw [if_pos h0] at hk
      cases hr : failIndexFrom R rest2 with
      | none => rw [hr] at hk; simp at hk
      | some k2 =>
        rw [hr] at hk
        simp only [Option.map_some'] at hk
        cases hk
        simp only [List.getElem?_cons_succ] at hop
        obtain ⟨v, hv⟩ := retryOk_true R op0.action.run h0
        simp only [orchGo, retry_operation_of_ok R op0.action.run acc v hv]
        rw [ih k2 op (i + 1) (acc ++ [v]) hr hop]
        have : i + 1 + k2 = i + (k2 + 1) := by omega
        rw [this]
    · rw [if_neg h0] at hk
      cases hk
      simp only [List.getElem?_cons_zero, Option.some.injEq] at hop
      cases hop
      have herr := retryOk_false R op0.action.run (by simpa using h0)
      simp only [orchGo, retry_operation_of_error R op0.action.run acc _ herr]
      rw [Nat.add_zero]

theorem orchGo_sweepEvents (R : Nat) (ops : List (Operation α)) :
    ∀ (rest : List (Operation α)) (k : Nat) (i : Nat) (acc : List α),
      failIndexFrom R rest = some k →
      sweepEvents (orchGo R ops i rest acc).2 = (sweepGo R ops (downFrom (i + k))).1 := by
  intro rest
  induction rest with
  | nil => intro k i acc h; exact Option.noConfusion h
  | cons op0 rest2 ih =>
    intro k i acc hk
    simp only [failIndexFrom] at hk
    by_cases h0 : retryOk R op0.action.run
    · rw [if_pos h0] at hk
      cases hr : failIndexFrom R rest2 with
      | none => rw [hr] at hk; simp at hk
      | some k2 =>
        rw [hr] at hk
        simp only [Option.map_some'] at hk
        cases hk
        obtain ⟨v, hv⟩ := retryOk_true R op0.action.run h0
        simp only [orchGo, retry_operation_of_ok R op0.action.run acc v hv]
        rw [sweepEvents_append, sweepEvents_attempts, ih k2 (i + 1) (acc ++ [v]) hr]
        have : i + 1 + k2 = i + (k2 + 1) := by omega
        rw [this]
        simp
    · rw [if_neg h0] at hk
      cases hk
      have herr := retryOk_false R op0.action.run (by simpa using h0)
      simp only [orchGo, retry_operation_of_error R op0.action.run acc _ herr]
      rw [sweepEvents_append, sweepEvents_attempts, sweepEvents_sweeps]
      rw [Nat.add_zero]
      simp

theorem orchGo_evIdx (R : Nat) (ops : List (Operation α)) :
    ∀ (rest : List (Operation α)) (k : Nat) (i : Nat) (acc : List α) (ev : Ev),
      failIndexFrom R rest = some k → ev ∈ (orchGo R ops i rest acc).2 →
      evIdx ev ≤ i + k := by
  intro rest
  induction rest with
  | nil => intro k i acc ev h; exact Option.noConfusion h
  | cons op0 rest2 ih =>
    intro k i acc ev hk hev
    simp only [failIndexFrom] at hk
    by_cases h0 : retryOk R op0.action.run
    · rw [if_pos h0] at hk
      cases hr : failIndexFrom R rest2 with
      | none => rw [hr] at hk; simp at hk
      | some k2 =>
        rw [hr] at hk
        simp only [Option.map_some'] at hk
        cases hk
        obtain ⟨v, hv⟩ := retryOk_true R op0.action.run h0
        simp only [orchGo, retry_operation_of_ok R op0.action.run acc v hv] at hev
        rcases List.mem_append.1 hev with h1 | h2
        · obtain ⟨n, _, hn⟩ := List.mem_map.1 h1
          rw [← hn]
          simp only [evIdx]
          omega
        · have := ih k2 (i + 1) (acc ++ [v]) ev hr h2
          omega
    · rw [if_neg h0] at hk
      cases hk
      have herr := retryOk_false R op0.action.run (by simpa using h0)
      simp only [orchGo, retry_operation_of_error R op0.action.run acc _ herr] at hev
      rcases List.mem_append.1 hev with h1 | h2
      · obtain ⟨n, _, hn⟩ := List.mem_map.1 h1
        rw [← hn]
        simp only [evIdx]
        omega
      · obtain ⟨p, hp, hpev⟩ := List.mem_map.1 h2
        rw [← hpev]
        simp only [evIdx]
        have := sweepGo_fst_mem R ops (downFrom i) p hp
        have := (mem_downFrom i p.1).1 this
        omega

/-!  Lemmas about the choreography runner. -/

theorem prepareGo_threadsFrom_ok (R : Nat) :
    ∀ (ops : List (Operation α)) (vs : List α) (base : Nat),
      ops.map (fun op => retryRun R op.action.run) = vs.map Except.ok →
      (prepareGo (threadsFrom R base ops)).1 = vs
      ∧ (prepareGo (threadsFrom R base ops)).2.2 = [] := by
  intro ops
  induction ops with
  | nil =>
    intro vs base h
    cases vs with
    | nil => exact ⟨rfl, rfl⟩
    | cons v vs2 => simp at h
  | cons op rest ih =>
    intro vs base h
    cases vs with
    | nil => simp at h
    | cons v vs2 =>
      simp only [List.map_cons, List.cons.injEq] at h
      obtain ⟨h1, h2⟩ := h
      have hr := ih vs2 (base + 1) h2
      simp only [threadsFrom, prepareGo, h1]
      exact ⟨by rw [hr.1], hr.2⟩

theorem prepareGo_threadsFrom_fail (R : Nat) :
    ∀ (ops : List (Operation α)) (k : Nat) (op : Operation α) (base : Nat),
      failIndexFrom R ops = some k → ops[k]? = some op →
      ∃ tail, (prepareGo (threadsFrom R base ops)).2.2 =
        (base + k, op.action.name, retryError R op.action.run) :: tail := by
  intro ops
  induction ops with
  | nil => intro k op base h; exact Option.noConfusion h
  | cons op0 rest ih =>
    intro k op base hk hop
    simp only [failIndexFrom] at hk
    by_cases h0 : retryOk R op0.action.run
    · rw [if_pos h0] at hk
      cases hr : failIndexFrom R rest with
      | none => rw [hr] at hk; simp at hk
      | some k2 =>
        rw [hr] at hk
        simp only [Option.map_some'] at hk
        cases hk
        simp only [List.getElem?_cons_succ] at hop
        obtain ⟨v, hv⟩ := retryOk_true R op0.action.run h0
        obtain ⟨tail, htail⟩ := ih k2 op (base + 1) hr hop
        refine ⟨tail, ?_⟩
        simp only [threadsFrom, prepareGo, hv]
        rw [htail]
        have : base + 1 + k2 = base + (k2 + 1) := by omega
        rw [this]
    · rw [if_neg h0] at hk
      cases hk
      simp only [List.getElem?_cons_zero, Option.some.injEq] at hop
      cases hop
      have herr := retryOk_false R op0.action.run (by simpa using h0)
      refine ⟨(prepareGo (threadsFrom R (base + 1) rest)).2.2, ?_⟩
      simp only [threadsFrom, prepareGo, herr]
      simp

theorem prepareGo_threadsFrom_si_mem (R : Nat) :
    ∀ (ops : List (Operation α)) (base j : Nat),
      j ∈ (prepareGo (threadsFrom R base ops)).2.1 ↔
        ∃ k op, ops[k]? = some op ∧ j = base + k ∧ retryOk R op.action.run = true := by
  intro ops
  induction ops with
  | nil => intro base j; simp [threadsFrom, prepareGo]
  | cons op0 rest ih =>
    intro base j
    cases h0 : retryOk R op0.action.run with
    | false =>
      have herr := retryOk_false R op0.action.run h0
      simp only [threadsFrom, prepareGo, herr]
      rw [ih (base + 1) j]
      constructor
      · rintro ⟨k, op, hop, hj, hok⟩
        exact ⟨k + 1, op, by simpa using hop, by omega, hok⟩
      · rintro ⟨k, op, hop, hj, hok⟩
        cases k with
        | zero =>
          simp only [List.getElem?_cons_zero, Option.some.injEq] at hop
          cases hop
          rw [h0] at hok
          exact absurd hok (by simp)
        | succ k2 =>
          exact ⟨k2, op, by simpa using hop, by omega, hok⟩
    | true =>
      obtain ⟨v, hv⟩ := retryOk_true R op0.action.run h0
      simp only [threadsFrom, prepareGo, hv, List.mem_cons]
      rw [ih (base + 1) j]
      constructor
      · rintro (h | ⟨k, op, hop, hj, hok⟩)
        · exact ⟨0, op0, by simp, by omega, h0⟩
        · exact ⟨k + 1, op, by simpa using hop, by omega, hok⟩
      · rintro ⟨k, op, hop, hj, hok⟩
        cases k with
        | zero =>
          left
          omega
        | succ k2 =>
          right
          exact ⟨k2, op, by simpa using hop, by omega, hok⟩

theorem mem_eligibleComps (ops : List (Operation α)) (si : List Nat) (i : Nat) :
    i ∈ eligibleComps ops si ↔ i ∈ si ∧ compAt ops i = true := by
  unfold eligibleComps
  rw [List.mem_filter]
  apply and_congr_right
  intro _
  unfold compAt
  cases hop : ops[i]? with
  | none => simp
  | some op =>
    cases hc : op.comp with
    | none => simp [tupleLen, hc]
    | some c => simp [tupleLen, hc]

theorem partitionOutcomes_ok (vs : List α) :
    partitionOutcomes (vs.map Except.ok) = (vs, []) := by
  induction vs with
  | nil => rfl
  | cons v rest ih => simp [partitionOutcomes, ih]

theorem choreographyCompOutcomes_length (ops : List (Operation α)) (si : List Nat) :
    (choreographyCompOutcomes ops si).length = (eligibleComps ops si).length := by
  unfold choreographyCompOutcomes
  have h : ∀ i ∈ eligibleComps ops si, compAt ops i = true :=
    fun i hi => ((mem_eligibleComps ops si i).1 hi).2
  generalize eligibleComps ops si = l at h ⊢
  induction l with
  | nil => rfl
  | cons i rest ih =>
    have hi := h i (List.mem_cons_self i rest)
    unfold compAt at hi
    cases hop : ops[i]? with
    | none => rw [hop] at hi; simp at hi
    | some op =>
      rw [hop] at hi
      have hi2 : op.comp.isSome = true := by simpa using hi
      cases hc : op.comp with
      | none => rw [hc] at hi2; simp at hi2
      | some c =>
        simp only [List.filterMap_cons, hop, hc, List.length_cons]
        rw [ih fun i2 hi2 => h i2 (List.mem_cons_of_mem i hi2)]

theorem choreography_execute_ok (R : Nat) (ops : List (Operation α)) (vs : List α)
    (hne : ops ≠ []) (h : ops.map (fun op => retryRun R op.action.run) = vs.map Except.ok) :
    choreography_execute R ops = Except.ok vs := by
  have hp := prepareGo_threadsFrom_ok R ops vs 0 h
  unfold choreography_execute
  rw [if_neg (by simpa using hne)]
  unfold prepare_thread_result choreographyThreads
  simp only [hp.1, hp.2, List.isEmpty_nil, if_true]

theorem choreography_execute_fail (R : Nat) (ops : List (Operation α)) (k : Nat)
    (op : Operation α) (hk : failIndexFrom R ops = some k) (hop : ops[k]? = some op) :
    choreography_execute R ops = Except.error
      { operation_error := retryError R op.action.run,
        operation_name := some op.action.name,
        compensation_success_result :=
          (execute_choreography_compensation ops (successIndices R ops)).1,
        compensation_errors :=
          (execute_choreography_compensation ops (successIndices R ops)).2 } := by
  have hlen := failIndexFrom_lt R ops k hk
  have hne : ops ≠ [] := by
    intro hemp
    rw [hemp] at hlen
    simp at hlen
  obtain ⟨tail, htail⟩ := prepareGo_threadsFrom_fail R ops k op 0 hk hop
  rw [Nat.zero_add] at htail
  unfold choreography_execute
  rw [if_neg (by simpa using hne)]
  unfold prepare_thread_result choreographyThreads successIndices
  simp only [htail, List.isEmpty_cons, if_false]
  rfl

theorem filterComm (p : Nat → Bool) (f : Nat → Nat) :
    ∀ l : List Nat, (l.map f).filter p = (l.filter fun x => p (f x)).map f := by
  intro l
  induction l with
  | nil => rfl
  | cons a rest ih => cases h : p (f a) <;> simp [List.filter_cons, h, ih]

theorem prepareGo_threadsFrom_errs_idx (R : Nat) :
    ∀ (ops : List (Operation α)) (base : Nat),
      (prepareGo (threadsFrom R base ops)).2.2.map (fun t => t.1) =
        ((List.range ops.length).filter fun j => failsAt R ops j).map fun j => base + j := by
  intro ops
  induction ops with
  | nil => intro base; rfl
  | cons op0 rest ih =>
    intro base
    have hfailsS : ∀ j, failsAt R (op0 :: rest) (j + 1) = failsAt R rest j := by
      intro j
      simp [failsAt]
    have hrange : List.range (op0 :: rest).length = 0 :: (List.range rest.length).map Nat.succ := by
      rw [List.length_cons, List.range_succ_eq_map]
    have hrhs : ((List.range rest.length).map Nat.succ).filter (fun j => failsAt R (op0 :: rest) j) =
        ((List.range rest.length).filter fun j => failsAt R rest j).map Nat.succ := by
      rw [filterComm]
      congr 1
      apply List.filter_congr
      intro j _
      exact hfailsS j
    have hmm : (((List.range rest.length).filter fun j => failsAt R rest j).map Nat.succ).map
          (fun j => base + j) =
        ((List.range rest.length).filter fun j => failsAt R rest j).map fun j => base + 1 + j := by
      rw [List.map_map]
      apply List.map_congr_left
      intro j _
      simp only [Function.comp_apply]
      omega
    cases h0 : retryOk R op0.action.run with
    | true =>
      obtain ⟨v, hv⟩ := retryOk_true R op0.action.run h0
      have hfails0 : failsAt R (op0 :: rest) 0 = false := by
        simp [failsAt, h0]
      simp only [threadsFrom, prepareGo, hv]
      rw [ih (base + 1), hrange, List.filter_cons, hfails0]
      simp only [Bool.false_eq_true, if_false]
      rw [hrhs, hmm]
    | false =>
      obtain herr := retryOk_false R op0.action.run h0
      have hfails0 : failsAt R (op0 :: rest) 0 = true := by
        simp [failsAt, h0]
      simp only [threadsFrom, prepareGo, herr]
      rw [List.map_cons, ih (base + 1), hrange, List.filter_cons, hfails0]
      simp only [if_true]
      rw [List.map_cons, hrhs, hmm]
      simp

/-!  Lemmas about operation declaration. -/

theorem check_operation_error_iff (a : OpArg) :
    (∃ e, check_operation a = Except.error e) ↔ acceptedArg a = false := by
  cases a with
  | func n => simp [check_operation, acceptedArg]
  | callableObj n => simp [check_operation, acceptedArg]
  | plain => simp [check_operation, acceptedArg]
  | iterable elems =>
    cases elems with
    | nil => simp [check_operation, acceptedArg]
    | cons x rest =>
      cases x with
      | func n => simp [check_operation, acceptedArg]
      | callableObj n => simp [check_operation, acceptedArg]
      | iterable l2 => simp [check_operation, acceptedArg]
      | plain => simp [check_operation, acceptedArg]

theorem checkAll_error_iff :
    ∀ args : List OpArg, (∃ e, checkAll args = Except.error e) ↔
      ∃ a, a ∈ args ∧ acceptedArg a = false := by
  intro args
  induction args with
  | nil => simp [checkAll]
  | cons a rest ih =>
    cases hc : check_operation a with
    | error e =>
      have ha : acceptedArg a = false := (check_operation_error_iff a).1 ⟨e, hc⟩
      simp only [checkAll, hc]
      constructor
      · intro _
        exact ⟨a, List.mem_cons_self a rest, ha⟩
      · intro _
        exact ⟨e, rfl⟩
    | ok b =>
      have ha : ¬acceptedArg a = false := by
        intro hfalse
        obtain ⟨e, he⟩ := (check_operation_error_iff a).2 hfalse
        rw [hc] at he
        exact Except.noConfusion he
      simp only [checkAll, hc]
      cases hrest : checkAll rest with
      | error e2 =>
        constructor
        · intro _
          obtain ⟨a2, ha2, hacc⟩ := ih.1 ⟨e2, hrest⟩
          exact ⟨a2, List.mem_cons_of_mem a ha2, hacc⟩
        · intro _
          exact ⟨e2, rfl⟩
      | ok bs =>
        constructor
        · rintro ⟨e, he⟩
          exact Except.noConfusion he
        · rintro ⟨a2, ha2, hacc⟩
          rcases List.mem_cons.1 ha2 with h1 | h2
          · rw [h1] at hacc
            exact absurd hacc ha
          · obtain ⟨e2, he2⟩ := ih.2 ⟨a2, h2, hacc⟩
            rw [hrest] at he2
            exact Except.noConfusion he2

theorem filterSndMapPair (p : Nat → Bool) :
    ∀ l : List Nat, ((l.map fun j => (j, p j)).filter fun x => x.2) =
      (l.filter p).map fun j => (j, true) := by
  intro l
  induction l with
  | nil => rfl
  | cons a rest ih => cases h : p a <;> simp [List.filter_cons, h, ih]

/-!  Claim theorems. -/

/-- C1 (code bug): in a sequential run over `opsC1` — operation 0 declared
with an action only, operation 1 failing — the compensation sweep nevertheless
invokes a callable belonging to operation 0: tuple element `[-1]` of a 1-tuple
is the action itself, so the sweep call list is `[(0, false)]` (a non-declared
compensation call) and the re-run action's output 7 is even reported in
`compensation_success_result`.  This contradicts the claim that only
explicitly declared compensations are ever invoked. -/
theorem C1_sweep_invokes_action_only_callable :
    sweepEvents (orchTrace 1 opsC1) = [(0, false)]
    ∧ orchestrator_execute 1 opsC1 =
        Except.error ⟨some "boom", some "ship", some [7], none⟩ :=
  ⟨rfl, rfl⟩

/-- C2: in a sequential run failing at index `k` (after retry exhaustion), the
compensation sweep visits exactly the indices `k-1, ..., 0` in that reverse
order, each exactly once (so it always reaches index 0, every per-call
exception being caught individually); the declared compensations invoked are
exactly those of the indices below `k` carrying one, in the same reverse
order; and no callable of any operation with index greater than `k` is ever
invoked. -/
theorem C2_sequential_reverse_compensation (R k : Nat) (ops : List (Operation α))
    (hk : failIndexFrom R ops = some k) :
    (sweepEvents (orchTrace R ops)).map Prod.fst = downFrom k
    ∧ (sweepEvents (orchTrace R ops)).filter (fun p => p.2) =
        ((downFrom k).filter fun j => compAt ops j).map (fun j => (j, true))
    ∧ (∀ ev, ev ∈ orchTrace R ops → evIdx ev ≤ k) := by
  have hlt := failIndexFrom_lt R ops k hk
  have hbound : ∀ j, j ∈ downFrom k → j < ops.length := by
    intro j hj
    have := (mem_downFrom k j).1 hj
    omega
  have hse : sweepEvents (orchTrace R ops) = (sweepGo R ops (downFrom k)).1 := by
    unfold orchTrace
    have := orchGo_sweepEvents R ops ops k 0 [] hk
    simpa using this
  have hcalls := sweepGo_calls R ops (downFrom k) hbound
  refine ⟨?_, ?_, ?_⟩
  · rw [hse, hcalls]
    simp only [List.map_map]
    exact List.map_id (downFrom k)
  · rw [hse, hcalls]
    exact filterSndMapPair (fun j => compAt ops j) (downFrom k)
  · intro ev hev
    unfold orchTrace at hev
    have := orchGo_evIdx R ops ops k 0 [] ev hk hev
    simpa using this

/-- C2 witness: the saga `opsC2` (retry 1) fails at index 3; the sweep visits
2, 1, 0 in that order and invokes exactly the compensations declared at
indices 2 and 0, in that order. -/
theorem C2_witness :
    failIndexFrom 1 opsC2 = some 3
    ∧ (sweepEvents (orchTrace 1 opsC2)).map Prod.fst = [2, 1, 0]
    ∧ (sweepEvents (orchTrace 1 opsC2)).filter (fun p => p.2) = [(2, true), (0, true)] :=
  ⟨rfl, (C2_sequential_reverse_compensation 1 3 opsC2 rfl).1,
    (C2_sequential_reverse_compensation 1 3 opsC2 rfl).2.1⟩

/-- C3: with `retryAttempts = R`, an action failing on attempts `1..R-1` and
succeeding on attempt `R` makes `__retry_operation` return that success
(appending the result to the accumulator) after exactly `R` invocations, with
no failure surfaced; an action failing on all `R` attempts makes it re-raise
the final attempt's error, which an orchestrator run wraps as the
`operation_error` of the resulting `SagaException`. -/
theorem C3_retry_semantics (R : Nat) (f g : Nat → Except String α) (v : α)
    (errf : Nat → String) (nm : String) (acc : List α) (hR : 0 < R)
    (hfail : ∀ i, i < R - 1 → f i = Except.error (errf i))
    (hok : f (R - 1) = Except.ok v)
    (hgerr : ∀ i, i < R → g i = Except.error (errf i)) :
    retry_operation R f acc = Except.ok (v, acc ++ [v])
    ∧ attemptsUsed R f = R
    ∧ retryRun R g = Except.error (some (errf (R - 1)))
    ∧ orchestrator_execute R [⟨⟨nm, g⟩, none⟩] =
        Except.error ⟨some (errf (R - 1)), some nm, none, none⟩ := by
  have herr : ∀ i, i < R - 1 → ∃ e, f i = Except.error e :=
    fun i hi => ⟨errf i, hfail i hi⟩
  have h1 : retryRun R f = Except.ok v :=
    retryRun_first_ok R (R - 1) f v (by omega) hok herr
  have hg : retryRun R g = Except.error (some (errf (R - 1))) :=
    retryRun_all_error R g errf hR hgerr
  refine ⟨retry_operation_of_ok R f acc v h1, ?_, hg, ?_⟩
  · have := attemptsUsed_first_ok R (R - 1) f v (by omega) hok herr
    omega
  · have hok0 : retryOk R g = false := by
      unfold retryOk
      rw [hg]
    have hfi : failIndexFrom R [(⟨⟨nm, g⟩, none⟩ : Operation α)] = some 0 := by
      simp [failIndexFrom, hok0]
    have hres := orchGo_fail R [⟨⟨nm, g⟩, none⟩] [⟨⟨nm, g⟩, none⟩] 0
      ⟨⟨nm, g⟩, none⟩ 0 [] hfi (by simp)
    have hre : retryError R g = some (errf (R - 1)) := by
      unfold retryError
      rw [hg]
    unfold orchestrator_execute
    rw [if_neg (by simp)]
    rw [hres, hre]
    rfl

/-- C3 witness: with 3 attempts, `fC3` (two failures then 42) yields the
success after exactly 3 invocations; `gC3` (always failing) surfaces the last
attempt's error, wrapped by the orchestrator. -/
theorem C3_witness :
    retry_operation 3 fC3 [9] = Except.ok (42, [9, 42])
    ∧ attemptsUsed 3 fC3 = 3
    ∧ retryRun 3 gC3 = Except.error (some "boom")
    ∧ orchestrator_execute 3 [⟨⟨"act", gC3⟩, none⟩] =
        Except.error ⟨some "boom", some "act", none, none⟩ :=
  C3_retry_semantics 3 fC3 gC3 42 (fun _ => "boom") "act" [9] (by omega)
    (fun i hi => by interval_cases i <;> rfl) rfl (fun i _ => rfl)

/-- C4: when every declared action succeeds (registry nonempty), both
`orchestrator_execute` and `choreography_execute` return exactly the list of
the N per-action outputs ordered by declaration index. -/
theorem C4_all_success_declaration_order (R : Nat) (ops : List (Operation α)) (vs : List α)
    (hne : ops ≠ [])
    (h : ops.map (fun op => retryRun R op.action.run) = vs.map Except.ok) :
    orchestrator_execute R ops = Except.ok vs
    ∧ choreography_execute R ops = Except.ok vs
    ∧ vs.length = ops.length := by
  refine ⟨?_, choreography_execute_ok R ops vs hne h, ?_⟩
  · unfold orchestrator_execute
    rw [if_neg (by simpa using hne)]
    have := orchGo_ok R ops ops vs 0 [] h
    simpa using this
  · have := congrArg List.length h
    simpa using this.symm

/-- C4 witness: the three-operation all-success saga `opsC4` returns
`[1, 2, 3]` in declaration order in both modes. -/
theorem C4_witness :
    orchestrator_execute 1 opsC4 = Except.ok [1, 2, 3]
    ∧ choreography_execute 1 opsC4 = Except.ok [1, 2, 3]
    ∧ ([1, 2, 3] : List Nat).length = opsC4.length :=
  C4_all_success_declaration_order 1 opsC4 [1, 2, 3] (by simp [opsC4]) rfl

/-- C5: in a failing choreography run, an operation's compensation is
submitted exactly when that operation's action succeeded and a compensation
was declared — never for a failed operation and never for a succeeded one
without a compensation. -/
theorem C5_choreography_compensation_eligibility (R k : Nat) (ops : List (Operation α))
    (hk : failIndexFrom R ops = some k) :
    (∀ i, i ∈ eligibleComps ops (successIndices R ops) ↔
      ∃ op, ops[i]? = some op ∧ retryOk R op.action.run = true ∧ op.comp.isSome = true)
    ∧ ∃ ex, choreography_execute R ops = Except.error ex := by
  constructor
  · intro i
    rw [mem_eligibleComps]
    unfold successIndices choreographyThreads
    rw [prepareGo_threadsFrom_si_mem R ops 0 i]
    constructor
    · rintro ⟨⟨k2, op, hop, hi, hokk⟩, hcomp⟩
      have hik : i = k2 := by omega
      subst hik
      refine ⟨op, hop, hokk, ?_⟩
      unfold compAt at hcomp
      rw [hop] at hcomp
      exact hcomp
    · rintro ⟨op, hop, hokk, hsome⟩
      refine ⟨⟨i, op, hop, by omega, hokk⟩, ?_⟩
      unfold compAt
      rw [hop]
      exact hsome
  · obtain ⟨op, hop, _⟩ := failIndexFrom_get R ops k hk
    exact ⟨_, choreography_execute_fail R ops k op hk hop⟩

/-- C5 witness: `opsC5` fails at index 2; only index 0 (succeeded, with a
compensation) is submitted — not index 1 (no compensation) and not the failed
index 2 (despite its declared compensation). -/
theorem C5_witness :
    eligibleComps opsC5 (successIndices 1 opsC5) = [0]
    ∧ (2 ∈ eligibleComps opsC5 (successIndices 1 opsC5) ↔
        ∃ op, opsC5[2]? = some op ∧ retryOk 1 op.action.run = true ∧ op.comp.isSome = true) :=
  ⟨rfl, (C5_choreography_compensation_eligibility 1 2 opsC5 rfl).1 2⟩

/-- C6 (amended): every failed run, in either mode, surfaces exactly one
`SagaException`; it carries the failing action's error, the failing action's
function name — not its declaration index — and the compensation outputs and
errors (each absent when none were collected). -/
theorem C6_failure_payload (R k : Nat) (ops : List (Operation α)) (op : Operation α)
    (hk : failIndexFrom R ops = some k) (hop : ops[k]? = some op) :
    orchestrator_execute R ops = Except.error
      ⟨retryError R op.action.run, some op.action.name,
       (execute_orchestrator_compensation R ops k).1,
       (execute_orchestrator_compensation R ops k).2⟩
    ∧ choreography_execute R ops = Except.error
      ⟨retryError R op.action.run, some op.action.name,
       (execute_choreography_compensation ops (successIndices R ops)).1,
       (execute_choreography_compensation ops (successIndices R ops)).2⟩ := by
  constructor
  · have hlt := failIndexFrom_lt R ops k hk
    have hne : ops ≠ [] := by
      intro hemp
      rw [hemp] at hlt
      simp at hlt
    unfold orchestrator_execute
    rw [if_neg (by simpa using hne)]
    have := orchGo_fail R ops ops k op 0 [] hk hop
    simpa using this
  · exact choreography_execute_fail R ops k op hk hop

/-- C6 witness: `opsC6b` fails at index 1; both modes raise the payload built
from the failing action's name and error together with the aggregated
compensation fields. -/
theorem C6_witness :
    orchestrator_execute 1 opsC6b =
      Except.error ⟨some "boom", some "f", some [5], none⟩
    ∧ choreography_execute 1 opsC6b =
      Except.error ⟨some "boom", some "f", none, none⟩ :=
  ⟨(C6_failure_payload 1 1 opsC6b ⟨failCall "f" "boom", none⟩ rfl rfl).1,
   (C6_failure_payload 1 1 opsC6b ⟨failCall "f" "boom", none⟩ rfl rfl).2⟩

/-- C6 counterexample: the `SagaException` does not carry the failing
operation's declaration index.  Two concrete choreography runs whose failing
operations sit at declaration indices 0 and 1 respectively raise exactly the
same exception value, so the payload cannot determine the failing index; the
code stores only the action's `__name__`. -/
theorem C6_counterexample :
    choreography_execute 1 opsC6a = choreography_execute 1 opsC6b
    ∧ choreography_execute 1 opsC6a =
        Except.error ⟨some "boom", some "f", none, none⟩
    ∧ failIndexFrom 1 opsC6a = some 0
    ∧ failIndexFrom 1 opsC6b = some 1 :=
  ⟨rfl, rfl, rfl, rfl⟩

/-- C7 (amended): `operation` raises exactly when no argument is given, more
than two are given, or some argument is neither a plain function
(`types.FunctionType`) nor a sequence whose first element is a plain function
(followed by pre-bound positional arguments); on every error the registry is
left unchanged, and on success exactly one tuple is appended.  (Merely being
callable is not enough — see the counterexample — and an empty sequence
argument raises `IndexError` rather than the declaration error.) -/
theorem C7_declaration_validation (regs : List (List BoundCall)) (args : List OpArg) :
    ((operation regs args).2.isSome = true ↔
      (args = [] ∨ 2 < args.length ∨ ∃ a, a ∈ args ∧ acceptedArg a = false))
    ∧ ((operation regs args).2.isSome = true → (operation regs args).1 = regs)
    ∧ ((operation regs args).2 = none → ∃ tup, (operation regs args).1 = regs ++ [tup]) := by
  cases args with
  | nil => refine ⟨?_, ?_, ?_⟩ <;> simp [operation]
  | cons a rest =>
    by_cases hlen : 2 < (a :: rest).length
    · have hop : operation regs (a :: rest) =
          (regs, some (DeclErr.sagaExc "Only two operations (action, compensation) are allowed.")) := by
        unfold operation
        rw [if_neg (by simp), if_pos hlen]
      refine ⟨?_, ?_, ?_⟩
      · rw [hop]
        simp only [Option.isSome_some, true_iff]
        exact Or.inr (Or.inl hlen)
      · intro _
        rw [hop]
      · intro hnone
        rw [hop] at hnone
        simp at hnone
    · cases hall : checkAll (a :: rest) with
      | error e =>
        have hop : operation regs (a :: rest) = (regs, some e) := by
          unfold operation
          rw [if_neg (by simp), if_neg hlen, hall]
        have hex : ∃ a2, a2 ∈ a :: rest ∧ acceptedArg a2 = false :=
          (checkAll_error_iff (a :: rest)).1 ⟨e, hall⟩
        refine ⟨?_, ?_, ?_⟩
        · rw [hop]
          simp only [Option.isSome_some, true_iff]
          exact Or.inr (Or.inr hex)
        · intro _
          rw [hop]
        · intro hnone
          rw [hop] at hnone
          simp at hnone
      | ok tup =>
        have hop : operation regs (a :: rest) = (regs ++ [tup], none) := by
          unfold operation
          rw [if_neg (by simp), if_neg hlen, hall]
        have hnoex : ¬∃ a2, a2 ∈ a :: rest ∧ acceptedArg a2 = false := by
          intro hex
          obtain ⟨e2, he2⟩ := (checkAll_error_iff (a :: rest)).2 hex
          rw [hall] at he2
          exact Except.noConfusion he2
        refine ⟨?_, ?_, ?_⟩
        · rw [hop]
          constructor
          · intro h
            exact absurd h (by simp)
          · intro hcase
            rcases hcase with h1 | h2 | h3
            · exact List.noConfusion h1
            · exact absurd h2 hlen
            · exact absurd h3 hnoex
        · intro h
          rw [hop] at h
          simp at h
        · intro _
          rw [hop]
          exact ⟨tup, rfl⟩

/-- C7 witness: a valid two-argument declaration (a bare function and a
sequence binding arguments to a function) raises nothing and appends exactly
one tuple to the empty registry. -/
theorem C7_witness :
    (((operation [] [OpArg.func "f", OpArg.iterable [OpArg.func "g", OpArg.plain]]).2.isSome = true ↔
      ([OpArg.func "f", OpArg.iterable [OpArg.func "g", OpArg.plain]] = []
        ∨ 2 < ([OpArg.func "f", OpArg.iterable [OpArg.func "g", OpArg.plain]] : List OpArg).length
        ∨ ∃ a, a ∈ [OpArg.func "f", OpArg.iterable [OpArg.func "g", OpArg.plain]]
            ∧ acceptedArg a = false))
    ∧ ((operation [] [OpArg.func "f", OpArg.iterable [OpArg.func "g", OpArg.plain]]).2.isSome = true →
        (operation [] [OpArg.func "f", OpArg.iterable [OpArg.func "g", OpArg.plain]]).1 = [])
    ∧ ((operation [] [OpArg.func "f", OpArg.iterable [OpArg.func "g", OpArg.plain]]).2 = none →
        ∃ tup, (operation [] [OpArg.func "f", OpArg.iterable [OpArg.func "g", OpArg.plain]]).1 =
          [] ++ [tup])) :=
  C7_declaration_validation [] [OpArg.func "f", OpArg.iterable [OpArg.func "g", OpArg.plain]]

/-- C7 counterexample: a callable that is not a plain Python function (e.g.
the builtin `print`) is rejected by `__check_operation` — the declaration
raises although the first positional value is callable, refuting the claim's
"exactly when ... the first positional value is not callable"; the registry
stays unchanged. -/
theorem C7_counterexample :
    pyCallable (OpArg.callableObj "print") = true
    ∧ (operation [] [OpArg.callableObj "print"]).2 =
        some (DeclErr.sagaExc "Please add function in operation argument.")
    ∧ (operation [] [OpArg.callableObj "print"]).1 = [] :=
  ⟨rfl, rfl, rfl⟩

/-- C8 (amended): `SagaAssembler.__init__` raises exactly when the
`retry_attempts` value is truthy and neither `int` nor `float`; every falsy
value (omitted/`None`, `0`, `0.0`, the empty string, ...) silently defaults
the stored attempts to 1; every truthy numeric value — including negative
ones — is accepted and stored unchanged.  Non-positive numbers are therefore
not rejected, contrary to the claim. -/
theorem C8_construction (a : RetryArg) :
    ((∃ msg, sagaInit a = Except.error msg) ↔ (pyTruthy a = true ∧ pyNumber a = false))
    ∧ (pyTruthy a = false → sagaInit a = Except.ok ⟨RetryArg.pyInt 1⟩)
    ∧ (pyTruthy a = true → pyNumber a = true → sagaInit a = Except.ok ⟨a⟩) := by
  unfold sagaInit
  cases ht : pyTruthy a <;> cases hn : pyNumber a <;> simp [ht, hn]

/-- C8 witness: a positive integer is accepted and stored unchanged, with no
error raised. -/
theorem C8_witness :
    ((∃ msg, sagaInit (RetryArg.pyInt 5) = Except.error msg) ↔
      (pyTruthy (RetryArg.pyInt 5) = true ∧ pyNumber (RetryArg.pyInt 5) = false))
    ∧ (pyTruthy (RetryArg.pyInt 5) = false →
        sagaInit (RetryArg.pyInt 5) = Except.ok ⟨RetryArg.pyInt 1⟩)
    ∧ (pyTruthy (RetryArg.pyInt 5) = true → pyNumber (RetryArg.pyInt 5) = true →
        sagaInit (RetryArg.pyInt 5) = Except.ok ⟨RetryArg.pyInt 5⟩) :=
  C8_construction (RetryArg.pyInt 5)

/-- C8 counterexample: construction succeeds for the non-positive values `-3`
(stored as given) and `0` (silently replaced by 1), although the claim says
every non-positive value fails with a configuration error. -/
theorem C8_counterexample :
    sagaInit (RetryArg.pyInt (-3)) = Except.ok ⟨RetryArg.pyInt (-3)⟩
    ∧ ¬(0 < (-3 : Int))
    ∧ sagaInit (RetryArg.pyInt 0) = Except.ok ⟨RetryArg.pyInt 1⟩ :=
  ⟨rfl, by decide, rfl⟩

/-- C9: the compensation aggregation shared by both modes normalises an empty
collected list to absent: with zero sweep calls (orchestrator failing at
index 0) or zero eligible compensations (choreography) both `SagaException`
compensation fields are absent, and when all M submitted compensations
succeed the error field is absent and the output field holds exactly M
entries. -/
theorem C9_compensation_aggregation (R : Nat) (ops : List (Operation α))
    (si0 si1 : List Nat) (vs succ : List α) (errs : List String)
    (h0 : eligibleComps ops si0 = [])
    (h1 : choreographyCompOutcomes ops si1 = vs.map Except.ok)
    (hvs : vs ≠ []) (hsucc : succ ≠ []) :
    aggregateCompensation ([] : List α) ([] : List String) = (none, none)
    ∧ execute_orchestrator_compensation R ops 0 = (none, none)
    ∧ execute_choreography_compensation ops si0 = (none, none)
    ∧ execute_choreography_compensation ops si1 = (some vs, none)
    ∧ vs.length = (eligibleComps ops si1).length
    ∧ aggregateCompensation succ errs = (some succ, orNone errs) := by
  refine ⟨rfl, rfl, ?_, ?_, ?_, ?_⟩
  · unfold execute_choreography_compensation choreographyCompOutcomes
    rw [h0]
    rfl
  · unfold execute_choreography_compensation
    rw [h1, partitionOutcomes_ok]
    unfold aggregateCompensation orNone
    simp [hvs]
  · have := choreographyCompOutcomes_length ops si1
    rw [h1] at this
    simpa using this
  · unfold aggregateCompensation orNone
    simp [hsucc]

/-- C9 witness: on `opsC9`, success index list `[1]` yields no eligible
compensation (both fields absent) while `[0]` yields one succeeding
compensation (one output entry, errors absent). -/
theorem C9_witness :
    aggregateCompensation ([] : List Nat) ([] : List String) = (none, none)
    ∧ execute_orchestrator_compensation 1 opsC9 0 = (none, none)
    ∧ execute_choreography_compensation opsC9 [1] = (none, none)
    ∧ execute_choreography_compensation opsC9 [0] = (some [11], none)
    ∧ ([11] : List Nat).length = (eligibleComps opsC9 [0]).length
    ∧ aggregateCompensation ([5] : List Nat) ([] : List String) = (some [5], none) :=
  C9_compensation_aggregation 1 opsC9 [1] [0] [11] [5] [] rfl rfl (by simp) (by simp)

/-- C10: in a failing choreography run the collected failures are ordered by
declaration index; the first collected failure is the failing action with the
lowest declaration index (every smaller index succeeded), and exactly its
name and error are reported in the raised `SagaException`. -/
theorem C10_lowest_failure_reported (R k : Nat) (ops : List (Operation α)) (op : Operation α)
    (hk : failIndexFrom R ops = some k) (hop : ops[k]? = some op) :
    (prepareGo (choreographyThreads R ops)).2.2.map (fun t => t.1) =
      (List.range ops.length).filter (fun j => failsAt R ops j)
    ∧ (∃ tail, (prepareGo (choreographyThreads R ops)).2.2 =
        (k, op.action.name, retryError R op.action.run) :: tail)
    ∧ (∀ j op2, j < k → ops[j]? = some op2 → retryOk R op2.action.run = true)
    ∧ failsAt R ops k = true
    ∧ choreography_execute R ops = Except.error
        ⟨retryError R op.action.run, some op.action.name,
         (execute_choreography_compensation ops (successIndices R ops)).1,
         (execute_choreography_compensation ops (successIndices R ops)).2⟩ := by
  refine ⟨?_, ?_, failIndexFrom_least R ops k hk, ?_,
    choreography_execute_fail R ops k op hk hop⟩
  · unfold choreographyThreads
    rw [prepareGo_threadsFrom_errs_idx R ops 0]
    simp
  · obtain ⟨tail, htail⟩ := prepareGo_threadsFrom_fail R ops k op 0 hk hop
    rw [Nat.zero_add] at htail
    exact ⟨tail, htail⟩
  · obtain ⟨op2, hop2, hfail2⟩ := failIndexFrom_get R ops k hk
    rw [hop] at hop2
    cases hop2
    unfold failsAt
    rw [hop]
    show (!retryOk R op.action.run) = true
    rw [hfail2]
    rfl

/-- C10 witness: in `opsC10` the actions at indices 1 and 2 both fail; the
failures are collected as indices `[1, 2]` and the raised exception reports
index 1's name and error. -/
theorem C10_witness :
    (prepareGo (choreographyThreads 1 opsC10)).2.2.map (fun t => t.1) = [1, 2]
    ∧ choreography_execute 1 opsC10 =
        Except.error ⟨some "e1", some "f", none, none⟩ :=
  ⟨(C10_lowest_failure_reported 1 1 opsC10 ⟨failCall "f" "e1", none⟩ rfl rfl).1,
   (C10_lowest_failure_reported 1 1 opsC10 ⟨failCall "f" "e1", none⟩ rfl rfl).2.2.2.2⟩

end PyApiSaga
